import Mathlib

/-!
Shallow embedding of the ASCII animation streamer core (`src/app.py`):
banner-template construction, the scrolled banner view, the frame
compositor, the frame cache, and the streaming producer loop.
Strings are modelled as `List Char`; Python `int` as `Int`;
machine-level I/O (the transport) is abstracted as data.
-/

set_option autoImplicit false

namespace AsciiStream

/-- The ASCII escape character `ESC` (`"\x1b"` / `"\033"` in the source). -/
def escChar : Char := Char.ofNat 27

/-- Python `str` whitespace test for the ASCII characters that occur in this
program's data (space, tab, newline, carriage return, vertical tab, form feed):
used by `str.strip`, `str.rstrip` and `str.split`. -/
def isPySpace (c : Char) : Bool :=
  c = ' ' ∨ c = '\t' ∨ c = '\n' ∨ c = '\x0d' ∨ c = '\x0b' ∨ c = '\x0c'

/-- Python `ln.strip()` used as a truthiness test (`if ln.strip()`):
true iff the line has at least one non-whitespace character. -/
def pyHasContent (ln : List Char) : Bool :=
  ln.any (fun c => ¬ isPySpace c)

/-- Python `str.rstrip()`: drop trailing whitespace. -/
def pyRstrip (ln : List Char) : List Char :=
  (ln.reverse.dropWhile isPySpace).reverse

/-- Python `str.ljust(width)`: right-pad with spaces to `width`
(a no-op when the string is already at least that long, as with `Nat` subtraction). -/
def pyLjust (ln : List Char) (width : Nat) : List Char :=
  ln ++ List.replicate (width - ln.length) ' '

/-- The constant `PADDING = 10` from the source. -/
def PADDING : Nat := 10

/-- Model of `_normalize_banner_lines(lines, pad)` from `src/app.py`:
keep the non-blank lines, strip their trailing whitespace, compute
`width = max(line lengths, default 0) + pad`, and left-justify every kept
line to `width`.  Returns `(fixed lines, width)`. -/
def normalize_banner_lines (lines : List (List Char)) (pad : Nat) :
    List (List Char) × Nat :=
  let raw := (lines.filter pyHasContent).map pyRstrip
  let max_len := (raw.map List.length).foldr Nat.max 0
  let width := max_len + pad
  (raw.map (fun ln => pyLjust ln width), width)

/-- Accumulator loop for Python `str.split()` (split on whitespace runs,
discarding empty pieces). -/
def pySplitAux : List Char → List Char → List (List Char)
  | [], acc => if acc.isEmpty then [] else [acc.reverse]
  | c :: rest, acc =>
    if isPySpace c then
      if acc.isEmpty then pySplitAux rest []
      else acc.reverse :: pySplitAux rest []
    else pySplitAux rest (c :: acc)

/-- Python `text.split()` with no separator argument. -/
def pySplitWs (s : List Char) : List (List Char) :=
  pySplitAux s []

/-- Python `" ".join(pieces)`. -/
def joinWithSpace (pieces : List (List Char)) : List Char :=
  List.intercalate [' '] pieces

/-- Model of `make_ticker_lines(text, pad)` from `src/app.py`:
collapse whitespace runs (`" ".join(text.split())`), then return a single
line left-justified to `width = len(base) + pad`, together with `width`. -/
def make_ticker_lines (text : List Char) (pad : Nat) :
    List (List Char) × Nat :=
  let base := joinWithSpace (pySplitWs text)
  let width := base.length + pad
  ([pyLjust base width], width)

/-- Model of `shift_lines(lines, offset, total_width)` from `src/app.py`:
reduce the offset modulo `max(1, total_width)` and rotate every line left by
the same reduced offset (`line[o:] + line[:o]`).  Python `%` with a positive
modulus agrees with `Int.emod`. -/
def shift_lines (lines : List (List Char)) (offset : Int) (total_width : Int) :
    List (List Char) :=
  let o := offset % max 1 total_width
  lines.map (fun line => line.drop o.toNat ++ line.take o.toNat)

/-- Python `str.splitlines()` restricted to `'\n'` terminators (the only line
separator occurring in this program's frame data): like splitting on `'\n'`,
except that the empty string yields no lines and a trailing `'\n'` does not
produce a trailing empty line. -/
def pySplitlines : List Char → List (List Char)
  | [] => []
  | c :: rest =>
    if c = '\n' then [] :: pySplitlines rest
    else
      match pySplitlines rest with
      | [] => [[c]]
      | h :: t => (c :: h) :: t

/-- Model of `print_line_and_clear(line)` inside `render_frame_with_banner`:
the line, then `ESC[K` (erase to end of line), then a newline. -/
def printLineAndClear (line : List Char) : List Char :=
  line ++ [escChar, '[', 'K', '\n']

/-- The Rich markup wrapper `f"[rgb({banner_color})]{ln}[/]"` applied to each
banner line (the markup text itself; markup-to-ANSI rendering by the Rich
collaborator is outside the core and is modelled as the identity). -/
def colorWrap (color ln : List Char) : List Char :=
  ("[rgb(".toList ++ color ++ ")]".toList) ++ ln ++ "[/]".toList

/-- Model of `render_frame_with_banner(frame_rich_text, banner_lines, banner_color)`
from `src/app.py`: each content line tail-cleared, one blank separator line
tail-cleared, each color-wrapped banner line tail-cleared, then `ESC[J`
(erase to end of screen). -/
def render_frame_with_banner (frame : List Char) (bannerLines : List (List Char))
    (bannerColor : List Char) : List Char :=
  ((pySplitlines frame).map printLineAndClear).flatten
    ++ printLineAndClear []
    ++ (bannerLines.map (fun ln => printLineAndClear (colorWrap bannerColor ln))).flatten
    ++ [escChar, '[', 'J']

/-- Number of occurrences of the three-character control sequence
`ESC [ k` in a character list (counted at every position). -/
def countEsc (k : Char) : List Char → Nat
  | a :: b :: c :: rest =>
    (if a = escChar ∧ b = '[' ∧ c = k then 1 else 0) + countEsc k (b :: c :: rest)
  | _ => 0

/-- The setup control sequence emitted once in the `Starting` phase:
with `alt_screen`, enter alternate screen, clear, home, hide cursor;
otherwise clear, home, hide cursor. -/
def startSeq (alt : Bool) : List Char :=
  if alt then "\x1b[?1049h\x1b[2J\x1b[H\x1b[?25l".toList
  else "\x1b[2J\x1b[H\x1b[?25l".toList

/-- The teardown control sequence emitted once in the `Draining` phase:
show cursor, and leave the alternate screen only when it was entered. -/
def endSeq (alt : Bool) : List Char :=
  if alt then "\x1b[?25h\x1b[?1049l".toList
  else "\x1b[?25h".toList

/-- The cursor-home prefix `"\033[H"` prepended to every composed buffer. -/
def cursorHome : List Char := [escChar, '[', 'H']

/-- The `Running` loop of `stream_json_with_banner`, with cancellation
modelled as fuel: each cycle composes the frame at index `i` with the banner
view at the current offset, yields it behind a cursor-home, then advances
`i` cyclically (the inner `for i in range(n)` restarted by `while True`) and
the banner offset by one. -/
def stream_body (frames bannerTemplate : List (List Char)) (bannerWidth : Int)
    (bannerColor : List Char) : Nat → Nat → Int → List (List Char)
  | 0, _, _ => []
  | Nat.succ fuel, i, off =>
    let shifted := shift_lines bannerTemplate off bannerWidth
    let content := render_frame_with_banner (frames.getD i []) shifted bannerColor
    (cursorHome ++ content) ::
      stream_body frames bannerTemplate bannerWidth bannerColor fuel
        ((i + 1) % frames.length) (off + 1)

/-- Model of `stream_json_with_banner` from `src/app.py` as the trace of chunks a
session emits when it is cancelled after `cycles` composed buffers: the setup
sequence, then the `Running` loop starting at frame 0 and offset 0, then
(from the `finally` block) the teardown sequence. -/
def stream_json_with_banner (frames bannerTemplate : List (List Char))
    (bannerWidth : Int) (bannerColor : List Char) (alt : Bool) (cycles : Nat) :
    List (List Char) :=
  startSeq alt ::
    (stream_body frames bannerTemplate bannerWidth bannerColor cycles 0 0
      ++ [endSeq alt])

/-- The `finally` block of `stream_json_with_banner`
(`try: yield end / except Exception: pass`): hand the teardown sequence to
the transport, which may fail; a failure is swallowed.  Returns the chunks
actually delivered; the result is never an error. -/
def teardown_emit {ε : Type} (alt : Bool) (emit : List Char → Except ε Unit) :
    Except ε (List (List Char)) :=
  match emit (endSeq alt) with
  | Except.ok _ => Except.ok [endSeq alt]
  | Except.error _ => Except.ok []

/-- The shape of a decoded JSON document as far as `load_json_frames`
inspects it: a string, a list, or anything else (number, object, boolean,
null — all of which fail both `isinstance` checks). -/
inductive PyJson : Type where
  | str (s : List Char) : PyJson
  | list (l : List PyJson) : PyJson
  | other : PyJson

/-- The filesystem as `load_json_frames` sees it: which paths exist, and the
decoded JSON document behind an existing path (`json.load` on the opened
file). -/
structure Fs : Type where
  pathExists : List Char → Bool
  read : List Char → PyJson

/-- The exceptions `load_json_frames` can raise: `ValueError` for a
non-absolute path, `FileNotFoundError` for a missing file, `ValueError` for
content of the wrong shape. -/
inductive LoadErr : Type where
  | invalidConfig : LoadErr
  | notFound : LoadErr
  | invalidFormat : LoadErr
deriving DecidableEq

/-- POSIX `os.path.isabs`: the path starts with `'/'`. -/
def pyIsAbs (p : List Char) : Bool :=
  match p with
  | [] => false
  | c :: _ => c = '/'

/-- The validation loop `for i, fr in enumerate(data): if not isinstance(fr,
str): raise`: all elements as strings, or `none` at the first non-string. -/
def asStrings : List PyJson → Option (List (List Char))
  | [] => some []
  | PyJson.str s :: rest => (asStrings rest).map (fun l => s :: l)
  | PyJson.list _ :: _ => none
  | PyJson.other :: _ => none

/-- The body of `load_json_frames(json_path)` from `src/app.py` (without the
`lru_cache` wrapper): reject non-absolute paths, then missing files, then
decode and require a non-empty list of strings.  The second component counts
how many times the source was decoded (0 or 1). -/
def load_json_frames (fs : Fs) (json_path : List Char) :
    Except LoadErr (List (List Char)) × Nat :=
  if ¬ pyIsAbs json_path then (Except.error LoadErr.invalidConfig, 0)
  else if ¬ fs.pathExists json_path then (Except.error LoadErr.notFound, 0)
  else
    let data := fs.read json_path
    (match data with
     | PyJson.list l =>
       if l.isEmpty then Except.error LoadErr.invalidFormat
       else
         match asStrings l with
         | some frames => Except.ok frames
         | none => Except.error LoadErr.invalidFormat
     | _ => Except.error LoadErr.invalidFormat, 1)

/-- The state of the `functools.lru_cache` wrapper on `load_json_frames`:
entries keyed by path, most recently used first. -/
structure LruCache : Type where
  entries : List (List Char × List (List Char))

/-- Cache lookup by path. -/
def lruLookup (c : LruCache) (path : List Char) :
    Option (List (List Char)) :=
  (c.entries.find? (fun e => e.1 = path)).map (fun e => e.2)

/-- On a cache hit, `lru_cache` moves the entry to the most-recent position. -/
def lruTouch (c : LruCache) (path : List Char) : LruCache :=
  match c.entries.find? (fun e => e.1 = path) with
  | some e => ⟨e :: c.entries.eraseP (fun e => e.1 = path)⟩
  | none => c

/-- On a miss followed by a successful call, `lru_cache` inserts the new
entry at the most-recent position and, past `maxsize` entries, evicts the
least recently used one. -/
def lruInsert (c : LruCache) (path : List Char) (v : List (List Char))
    (maxsize : Nat) : LruCache :=
  ⟨((path, v) :: c.entries).take maxsize⟩

/-- Model of `load_json_frames` as called through `@lru_cache(maxsize=32)` (modelled
from the documented `functools.lru_cache` behaviour: results of successful
calls are cached, exceptions are not).  Returns the result, the new cache
state, and how many times the source was decoded by this call. -/
def cached_load (fs : Fs) (c : LruCache) (json_path : List Char) :
    Except LoadErr (List (List Char)) × LruCache × Nat :=
  match lruLookup c json_path with
  | some v => (Except.ok v, lruTouch c json_path, 0)
  | none =>
    match (load_json_frames fs json_path).1 with
    | Except.ok v =>
      (Except.ok v, lruInsert c json_path v 32, (load_json_frames fs json_path).2)
    | Except.error e => (Except.error e, c, (load_json_frames fs json_path).2)

/-! ### Helper lemmas -/

theorem le_foldr_max : ∀ {ns : List Nat} {n : Nat}, n ∈ ns →
    n ≤ ns.foldr Nat.max 0
  | _ :: _, _, h => by
    rcases List.mem_cons.mp h with rfl | h
    · exact Nat.le_max_left _ _
    · exact Nat.le_trans (le_foldr_max h) (Nat.le_max_right _ _)

theorem pyLjust_length {ln : List Char} {w : Nat} (h : ln.length ≤ w) :
    (pyLjust ln w).length = w := by
  simp [pyLjust]
  omega

theorem shift_lines_offset_bounds (t : Int) (tw : Int) :
    0 ≤ t % max 1 tw ∧ t % max 1 tw < max 1 tw := by
  have hpos : (0 : Int) < max 1 tw := lt_of_lt_of_le one_pos (le_max_left 1 tw)
  exact ⟨Int.emod_nonneg t (ne_of_gt hpos), Int.emod_lt_of_pos t hpos⟩

/-! ### Claim theorems -/

/-- C1: on a template whose lines all have the template width `W`, the view
at any integer tick `t` rotates every line left by the single offset
`o = t mod max(1, W)`; concretely, the one-line template `"ABCDE  "` of
width 7 views as itself at tick 0, as `"BCDE  A"` at tick 1, and at tick 7
as at tick 0. -/
theorem shift_lines_rotation (lines : List (List Char)) (W : Nat) (t : Int)
    (hlen : ∀ l ∈ lines, l.length = W) :
    shift_lines lines t (W : Int) =
      lines.map (fun l => l.rotate (t % max 1 (W : Int)).toNat) ∧
    shift_lines ["ABCDE  ".toList] 0 7 = ["ABCDE  ".toList] ∧
    shift_lines ["ABCDE  ".toList] 1 7 = ["BCDE  A".toList] ∧
    shift_lines ["ABCDE  ".toList] 7 7 = shift_lines ["ABCDE  ".toList] 0 7 := by
  refine ⟨?_, by decide, by decide, by decide⟩
  unfold shift_lines
  apply List.map_congr_left
  intro l hl
  have hW : l.length = W := hlen l hl
  have hb := shift_lines_offset_bounds t (W : Int)
  have hle : (t % max 1 (W : Int)).toNat ≤ l.length := by
    rcases Nat.eq_zero_or_pos W with h0 | h1
    · subst h0
      have h1 : max 1 ((0 : Nat) : Int) = 1 := by decide
      rw [h1, Int.emod_one] at hb ⊢
      simp [hW]
    · have hmax : max 1 ((W : Nat) : Int) = (W : Int) :=
        max_eq_right (by exact_mod_cast h1)
      rw [hmax] at hb ⊢
      rw [hW]
      omega
  rw [List.rotate_eq_drop_append_take hle]

/-- C8: the scroll view is periodic with period `W`: for a width `W ≥ 1` and
ticks `t1 ≡ t2 (mod W)`, the views at `t1` and `t2` agree line for line. -/
theorem shift_lines_periodic (lines : List (List Char)) (W : Nat) (hW : 1 ≤ W)
    (t1 t2 : Int) (h : Int.ModEq (W : Int) t1 t2) :
    shift_lines lines t1 (W : Int) = shift_lines lines t2 (W : Int) := by
  have h' : t1 % (W : Int) = t2 % (W : Int) := h
  have hmax : max 1 ((W : Nat) : Int) = (W : Int) :=
    max_eq_right (by exact_mod_cast hW)
  unfold shift_lines
  rw [hmax, h']

/-- C10: the shift operation is total for every integer offset and width
(the offset is reduced modulo `max(1, total_width)`, which is positive, so
the reduced offset is a well-defined in-range index) and preserves the
length of every line. -/
theorem shift_lines_total (lines : List (List Char)) (offset total_width : Int) :
    (shift_lines lines offset total_width).map List.length =
      lines.map List.length ∧
    shift_lines lines offset total_width =
      shift_lines lines (offset % max 1 total_width) total_width ∧
    0 ≤ offset % max 1 total_width ∧
    offset % max 1 total_width < max 1 total_width := by
  refine ⟨?_, ?_, shift_lines_offset_bounds offset total_width⟩
  · unfold shift_lines
    rw [List.map_map]
    apply List.map_congr_left
    intro l _
    simp only [Function.comp_apply, List.length_append, List.length_drop,
      List.length_take]
    omega
  · unfold shift_lines
    rw [Int.emod_emod_of_dvd offset dvd_rfl]

/-- C6: building a block banner template keeps exactly the non-blank raw
lines, and with `L` the longest length of a kept line after trailing
whitespace is stripped, the reported width is `L + PADDING` and every
template line has length exactly `L + PADDING`. -/
theorem normalize_banner_lines_spec (lines : List (List Char)) (L : Nat)
    (hL : L = ((lines.filter pyHasContent).map
      (fun ln => (pyRstrip ln).length)).foldr Nat.max 0) :
    (normalize_banner_lines lines PADDING).2 = L + PADDING ∧
    (∀ l ∈ (normalize_banner_lines lines PADDING).1,
      l.length = L + PADDING) ∧
    (normalize_banner_lines lines PADDING).1.length =
      (lines.filter pyHasContent).length := by
  have hmap : (((lines.filter pyHasContent).map pyRstrip).map List.length) =
      (lines.filter pyHasContent).map (fun ln => (pyRstrip ln).length) := by
    rw [List.map_map]; rfl
  refine ⟨?_, ?_, ?_⟩
  · rw [hL, ← hmap]
    rfl
  · intro l hl
    simp only [normalize_banner_lines, List.mem_map] at hl
    obtain ⟨r, hr, rfl⟩ := hl
    obtain ⟨a, ha, rfl⟩ := hr
    rw [hL, ← hmap]
    apply pyLjust_length
    have hmem : (pyRstrip a).length ∈
        ((lines.filter pyHasContent).map pyRstrip).map List.length :=
      List.mem_map_of_mem List.length (List.mem_map_of_mem pyRstrip ha)
    exact Nat.le_trans (le_foldr_max hmem) (Nat.le_add_right _ _)
  · simp [normalize_banner_lines]

/-- Witness for C6 at a concrete input: two non-blank lines of trimmed
lengths 4 and 5, so `L = 5` and every template line has length 15. -/
theorem normalize_banner_lines_spec_witness :
    (normalize_banner_lines
      ["  ab  ".toList, "".toList, "   ".toList, "cdefg".toList] PADDING).2
        = 5 + PADDING ∧
    (∀ l ∈ (normalize_banner_lines
      ["  ab  ".toList, "".toList, "   ".toList, "cdefg".toList] PADDING).1,
      l.length = 5 + PADDING) ∧
    (normalize_banner_lines
      ["  ab  ".toList, "".toList, "   ".toList, "cdefg".toList] PADDING).1.length
      = (["  ab  ".toList, "".toList, "   ".toList, "cdefg".toList].filter
          pyHasContent).length :=
  normalize_banner_lines_spec
    ["  ab  ".toList, "".toList, "   ".toList, "cdefg".toList] 5 (by decide)

/-- C7 counterexample: for the caption `"a  b"` (length 4, containing a
double space), the ticker width is `3 + PADDING = 13`, not
`len(caption) + PADDING = 14`. -/
theorem make_ticker_lines_width_counterexample :
    ¬ ((make_ticker_lines ("a  b".toList) PADDING).2 =
        ("a  b".toList).length + PADDING) := by
  decide

/-- C7 (amended): building a ticker banner collapses whitespace runs in the
caption to single spaces and trims it, and produces a one-line template
whose width is the length of the collapsed caption plus `PADDING`, the
single line being the collapsed caption padded to that width. -/
theorem make_ticker_lines_spec (text : List Char) :
    (make_ticker_lines text PADDING).2 =
      (joinWithSpace (pySplitWs text)).length + PADDING ∧
    (make_ticker_lines text PADDING).1.map List.length =
      [(make_ticker_lines text PADDING).2] ∧
    (make_ticker_lines text PADDING).1 =
      [pyLjust (joinWithSpace (pySplitWs text))
        ((joinWithSpace (pySplitWs text)).length + PADDING)] := by
  refine ⟨rfl, ?_, rfl⟩
  simp only [make_ticker_lines, List.map_cons, List.map_nil, List.cons.injEq,
    and_true]
  rw [pyLjust_length (Nat.le_add_right _ _)]

/-- Witness for C1: the one-line width-7 template at tick 1. -/
theorem shift_lines_rotation_witness :
    shift_lines ["ABCDE  ".toList] 1 ((7 : Nat) : Int) =
      ["ABCDE  ".toList].map
        (fun l => l.rotate ((1 : Int) % max 1 ((7 : Nat) : Int)).toNat) :=
  (shift_lines_rotation ["ABCDE  ".toList] 7 1 (by decide)).1

/-- Witness for C8: ticks 3 and 17 agree modulo the width 7. -/
theorem shift_lines_periodic_witness :
    shift_lines ["ABCDE  ".toList] 3 ((7 : Nat) : Int) =
      shift_lines ["ABCDE  ".toList] 17 ((7 : Nat) : Int) :=
  shift_lines_periodic ["ABCDE  ".toList] 7 (by decide) 3 17
    (show (3 : Int) % 7 = 17 % 7 by decide)

theorem countEsc_cons_ne {a : Char} (k : Char) (l : List Char)
    (ha : a ≠ escChar) : countEsc k (a :: l) = countEsc k l := by
  match l with
  | [] => rfl
  | [_] => rfl
  | b :: c :: rest => simp [countEsc, ha]

theorem countEsc_append_of_not_mem (k : Char) {s : List Char} (l : List Char)
    (h : escChar ∉ s) : countEsc k (s ++ l) = countEsc k l := by
  induction s with
  | nil => rfl
  | cons a s ih =>
    have ha : a ≠ escChar := fun e => h (e ▸ List.mem_cons_self a s)
    rw [List.cons_append, countEsc_cons_ne k _ ha,
      ih (fun m => h (List.mem_cons_of_mem a m))]

theorem countEsc_ctrl (k c : Char) (rest : List Char) (hc : c ≠ escChar) :
    countEsc k (escChar :: '[' :: c :: rest) =
      (if c = k then 1 else 0) + countEsc k rest := by
  have h1 : countEsc k (escChar :: '[' :: c :: rest) =
      (if escChar = escChar ∧ '[' = '[' ∧ c = k then 1 else 0) +
        countEsc k ('[' :: c :: rest) := rfl
  rw [h1, countEsc_cons_ne k _ (by decide), countEsc_cons_ne k _ hc]
  simp

theorem countEsc_printLineAndClear (k : Char) (line rest : List Char)
    (h : escChar ∉ line) :
    countEsc k (printLineAndClear line ++ rest) =
      (if 'K' = k then 1 else 0) + countEsc k rest := by
  rw [printLineAndClear, List.append_assoc, countEsc_append_of_not_mem k _ h]
  simp only [List.cons_append, List.nil_append]
  rw [countEsc_ctrl k 'K' ('\n' :: rest) (by decide),
    countEsc_cons_ne k rest (by decide)]

theorem countEsc_blocks (k : Char) (ls : List (List Char)) (rest : List Char)
    (h : ∀ l ∈ ls, escChar ∉ l) :
    countEsc k ((ls.map printLineAndClear).flatten ++ rest) =
      (if 'K' = k then ls.length else 0) + countEsc k rest := by
  induction ls with
  | nil => simp
  | cons a ls ih =>
    simp only [List.map_cons, List.flatten_cons, List.append_assoc]
    rw [countEsc_printLineAndClear k a _ (h a (List.mem_cons_self a ls)),
      ih (fun l hl => h l (List.mem_cons_of_mem a hl))]
    rcases eq_or_ne 'K' k with rfl | hk
    · simp only [eq_self_iff_true, if_true, List.length_cons]
      omega
    · simp [hk]

theorem pySplitlines_sub {s l : List Char} (hl : l ∈ pySplitlines s) :
    ∀ c ∈ l, c ∈ s := by
  induction s generalizing l with
  | nil => cases hl
  | cons a rest ih =>
    by_cases ha : a = '\n'
    · simp only [pySplitlines, ha, if_true, List.mem_cons] at hl
      rcases hl with rfl | hl
      · intro c hc; cases hc
      · intro c hc; exact List.mem_cons_of_mem a (ih hl c hc)
    · cases hrec : pySplitlines rest with
      | nil =>
        simp only [pySplitlines, ha, if_false, hrec, List.mem_singleton] at hl
        subst hl
        intro c hc
        rcases List.mem_singleton.mp hc with rfl
        exact List.mem_cons_self _ _
      | cons hd tl =>
        simp only [pySplitlines, ha, if_false, hrec, List.mem_cons] at hl
        rcases hl with rfl | hl
        · intro c hc
          rcases List.mem_cons.mp hc with rfl | hc
          · exact List.mem_cons_self _ _
          · have : hd ∈ pySplitlines rest := hrec ▸ List.mem_cons_self hd tl
            exact List.mem_cons_of_mem a (ih this c hc)
        · have : l ∈ pySplitlines rest := hrec ▸ List.mem_cons_of_mem hd hl
          intro c hc
          exact List.mem_cons_of_mem a (ih this c hc)

theorem colorWrap_not_esc {color ln : List Char} (hc : escChar ∉ color)
    (hl : escChar ∉ ln) : escChar ∉ colorWrap color ln := by
  simp only [colorWrap, List.append_assoc, List.mem_append]
  intro h
  rcases h with h | h | h | h | h
  · exact absurd h (by decide)
  · exact hc h
  · exact absurd h (by decide)
  · exact hl h
  · exact absurd h (by decide)

/-- C3: the composed buffer contains exactly one `ESC[K` per emitted line —
one per content line, one for the blank separator, one per banner line —
contains exactly one `ESC[J`, and ends with that `ESC[J]`.  (The lines and
the color descriptor are assumed free of the escape character, as all data
this program feeds the compositor is.) -/
theorem render_frame_clearing (frame color : List Char)
    (banner : List (List Char)) (hf : escChar ∉ frame)
    (hb : ∀ ln ∈ banner, escChar ∉ ln) (hc : escChar ∉ color) :
    countEsc 'K' (render_frame_with_banner frame banner color) =
      (pySplitlines frame).length + 1 + banner.length ∧
    countEsc 'J' (render_frame_with_banner frame banner color) = 1 ∧
    ∃ p, render_frame_with_banner frame banner color =
      p ++ [escChar, '[', 'J'] := by
  have hlines : ∀ l ∈ pySplitlines frame, escChar ∉ l :=
    fun l hl hm => hf (pySplitlines_sub hl escChar hm)
  have hwrapped : ∀ l ∈ banner.map (colorWrap color), escChar ∉ l := by
    intro l hl
    obtain ⟨ln, hln, rfl⟩ := List.mem_map.mp hl
    exact colorWrap_not_esc hc (hb ln hln)
  have key : ∀ k : Char, countEsc k (render_frame_with_banner frame banner color) =
      (if 'K' = k then (pySplitlines frame).length else 0) +
      ((if 'K' = k then 1 else 0) +
      ((if 'K' = k then banner.length else 0) +
      (if 'J' = k then 1 else 0))) := by
    intro k
    have hmm : banner.map (fun ln => printLineAndClear (colorWrap color ln)) =
        (banner.map (colorWrap color)).map printLineAndClear := by
      rw [List.map_map]; rfl
    rw [render_frame_with_banner, hmm, List.append_assoc, List.append_assoc,
      countEsc_blocks k _ _ hlines,
      countEsc_printLineAndClear k _ _ (by simp),
      countEsc_blocks k _ _ hwrapped,
      List.length_map, countEsc_ctrl k 'J' [] (by decide)]
    rfl
  refine ⟨?_, ?_, ?_⟩
  · rw [key 'K']; simp; omega
  · rw [key 'J']; simp
  · refine ⟨((pySplitlines frame).map printLineAndClear).flatten
      ++ (printLineAndClear []
      ++ (banner.map (fun ln => printLineAndClear (colorWrap color ln))).flatten), ?_⟩
    rw [render_frame_with_banner]
    simp [List.append_assoc]

/-- Witness for C3 at a concrete composition: two content lines, two banner
lines. -/
theorem render_frame_clearing_witness :
    countEsc 'K' (render_frame_with_banner "x\ny".toList
        ["b1".toList, "b2".toList] "1,2,3".toList) =
      (pySplitlines "x\ny".toList).length + 1 +
        [("b1".toList : List Char), "b2".toList].length ∧
    countEsc 'J' (render_frame_with_banner "x\ny".toList
        ["b1".toList, "b2".toList] "1,2,3".toList) = 1 ∧
    ∃ p, render_frame_with_banner "x\ny".toList
        ["b1".toList, "b2".toList] "1,2,3".toList =
      p ++ [escChar, '[', 'J'] :=
  render_frame_clearing "x\ny".toList "1,2,3".toList
    ["b1".toList, "b2".toList] (by decide) (by decide) (by decide)

theorem stream_body_closed (frames tmpl : List (List Char)) (w : Int)
    (color : List Char) :
    ∀ (fuel i : Nat) (off : Int), i < frames.length →
    stream_body frames tmpl w color fuel i off =
      (List.range fuel).map (fun j =>
        cursorHome ++ render_frame_with_banner
          (frames.getD ((i + j) % frames.length) [])
          (shift_lines tmpl (off + (j : Int)) w) color)
  | 0, i, off, _ => by simp [stream_body]
  | Nat.succ fuel, i, off, hi => by
    have hn : 0 < frames.length := Nat.lt_of_le_of_lt (Nat.zero_le i) hi
    have hi' : (i + 1) % frames.length < frames.length :=
      Nat.mod_lt _ hn
    rw [stream_body,
      stream_body_closed frames tmpl w color fuel ((i + 1) % frames.length)
        (off + 1) hi',
      List.range_succ_eq_map, List.map_cons, List.map_map]
    congr 1
    · simp [Nat.mod_eq_of_lt hi]
    · apply List.map_congr_left
      intro j _
      simp only [Function.comp_apply]
      have h1 : ((i + 1) % frames.length + j) % frames.length =
          (i + (j + 1)) % frames.length := by
        rw [Nat.mod_add_mod]
        congr 1
        omega
      have h2 : off + 1 + (j : Int) = off + ((j : Nat) + 1 : Nat) := by
        push_cast
        ring
      rw [h1, h2]

/-- C2: the session trace is the setup sequence, then one composed buffer
per cycle whose content frame is `frames[j mod n]` at the `j`-th cycle (the
frame index wraps modulo the frame count and loops), each buffer using the
banner view at tick `j`, then the teardown sequence.  Concretely, a 3-frame
session cancelled after 5 cycles emits frames in the order
`[0, 1, 2, 0, 1]`, with exactly one setup chunk, first, and exactly one
teardown chunk, last. -/
theorem stream_frame_order (frames tmpl : List (List Char)) (w : Int)
    (color : List Char) (alt : Bool) (cycles : Nat) (hne : frames ≠ []) :
    stream_json_with_banner frames tmpl w color alt cycles =
      startSeq alt ::
        ((List.range cycles).map (fun j =>
          cursorHome ++ render_frame_with_banner
            (frames.getD (j % frames.length) [])
            (shift_lines tmpl (j : Int) w) color)
          ++ [endSeq alt]) ∧
    stream_json_with_banner ["A".toList, "B".toList, "C".toList] [] 0 []
        false 5 =
      [startSeq false,
       cursorHome ++ render_frame_with_banner "A".toList (shift_lines [] 0 0) [],
       cursorHome ++ render_frame_with_banner "B".toList (shift_lines [] 1 0) [],
       cursorHome ++ render_frame_with_banner "C".toList (shift_lines [] 2 0) [],
       cursorHome ++ render_frame_with_banner "A".toList (shift_lines [] 3 0) [],
       cursorHome ++ render_frame_with_banner "B".toList (shift_lines [] 4 0) [],
       endSeq false] ∧
    (stream_json_with_banner ["A".toList, "B".toList, "C".toList] [] 0 []
        false 5).count (startSeq false) = 1 ∧
    (stream_json_with_banner ["A".toList, "B".toList, "C".toList] [] 0 []
        false 5).count (endSeq false) = 1 := by
  refine ⟨?_, by decide, by decide, by decide⟩
  have hn : 0 < frames.length := List.length_pos.mpr hne
  rw [stream_json_with_banner,
    stream_body_closed frames tmpl w color cycles 0 0 hn]
  simp

/-- Witness for C2: the 3-frame, 5-cycle session. -/
theorem stream_frame_order_witness :
    stream_json_with_banner ["A".toList, "B".toList, "C".toList] [] 0 []
        false 5 =
      startSeq false ::
        ((List.range 5).map (fun j =>
          cursorHome ++ render_frame_with_banner
            (["A".toList, "B".toList, "C".toList].getD
              (j % ["A".toList, "B".toList, "C".toList].length) [])
            (shift_lines [] (j : Int) 0) [])
          ++ [endSeq false]) :=
  (stream_frame_order ["A".toList, "B".toList, "C".toList] [] 0 [] false 5
    (by decide)).1

/-- The exit-alternate-screen control code `ESC[?1049l`. -/
def exitAltSeq : List Char := "\x1b[?1049l".toList

theorem stream_body_chunk_shape (frames tmpl : List (List Char)) (w : Int)
    (color : List Char) :
    ∀ (fuel i : Nat) (off : Int) (x : List Char),
    x ∈ stream_body frames tmpl w color fuel i off →
    ∃ r, x = escChar :: '[' :: 'H' :: r
  | 0, _, _, _, hx => absurd hx (List.not_mem_nil _)
  | Nat.succ fuel, i, off, x, hx => by
    rw [stream_body] at hx
    rcases List.mem_cons.mp hx with rfl | hx
    · exact ⟨_, rfl⟩
    · exact stream_body_chunk_shape frames tmpl w color fuel _ _ x hx

theorem endSeq_ne_body_chunk (alt : Bool) (r : List Char) :
    escChar :: '[' :: 'H' :: r ≠ endSeq alt := by
  cases alt <;>
    · rw [show endSeq _ = _ from rfl]
      intro h
      simp [endSeq, String.toList] at h

/-- C4: however the session terminates, the teardown sequence appears in the
emitted trace exactly once (and nowhere else); the teardown sequence
contains the exit-alternate-screen code `ESC[?1049l` exactly when the
session entered the alternate screen; and handing the teardown sequence to
a transport that may reject it never raises — the failure is swallowed and
at most the teardown chunk itself is lost. -/
theorem stream_teardown (frames tmpl : List (List Char)) (w : Int)
    (color : List Char) (alt : Bool) (cycles : Nat) :
    (stream_json_with_banner frames tmpl w color alt cycles).count
      (endSeq alt) = 1 ∧
    (List.IsInfix exitAltSeq (endSeq alt) ↔ alt = true) ∧
    ∀ (ε : Type) (emit : List Char → Except ε Unit),
      ∃ delivered, teardown_emit alt emit = Except.ok delivered := by
  refine ⟨?_, ?_, ?_⟩
  · rw [stream_json_with_banner, List.count_cons, List.count_append]
    have h1 : (stream_body frames tmpl w color cycles 0 0).count (endSeq alt)
        = 0 := by
      rw [List.count_eq_zero]
      intro hmem
      obtain ⟨r, hr⟩ :=
        stream_body_chunk_shape frames tmpl w color cycles 0 0 _ hmem
      exact endSeq_ne_body_chunk alt r hr.symm
    have h2 : ¬ (startSeq alt = endSeq alt) := by
      cases alt <;> decide
    rw [h1, show (startSeq alt == endSeq alt) = false from
      beq_eq_false_iff_ne.mpr h2]
    simp
  · cases alt <;> decide
  · intro ε emit
    rw [teardown_emit]
    cases emit (endSeq alt) with
    | ok _ => exact ⟨[endSeq alt], rfl⟩
    | error _ => exact ⟨[], rfl⟩

theorem lruLookup_touch {c : LruCache} {path : List Char}
    {v : List (List Char)} (h : lruLookup c path = some v) :
    lruLookup (lruTouch c path) path = some v := by
  unfold lruLookup at h
  obtain ⟨e, he, hev⟩ := Option.map_eq_some'.mp h
  have hpred := List.find?_some he
  unfold lruLookup lruTouch
  rw [he]
  show Option.map (fun e => e.2)
    (List.find? (fun e => decide (e.1 = path))
      (e :: c.entries.eraseP (fun e => decide (e.1 = path)))) = some v
  rw [@List.find?_cons_of_pos _ (fun e => decide (e.1 = path)) e
    (c.entries.eraseP (fun e => decide (e.1 = path))) hpred]
  simpa using hev

theorem lruLookup_insert (c : LruCache) (path : List Char)
    (v : List (List Char)) (m : Nat) :
    lruLookup (lruInsert c path v (m + 1)) path = some v := by
  unfold lruLookup lruInsert
  rw [List.take_succ_cons, List.find?_cons_of_pos _ (by simp)]
  rfl

theorem cached_load_hit (fs : Fs) (c : LruCache) (path : List Char)
    (v : List (List Char)) (h : lruLookup c path = some v) :
    cached_load fs c path = (Except.ok v, lruTouch c path, 0) := by
  unfold cached_load
  rw [h]

theorem cached_load_ok_lookup (fs : Fs) (c : LruCache) (path : List Char)
    (v : List (List Char)) (h : (cached_load fs c path).1 = Except.ok v) :
    lruLookup (cached_load fs c path).2.1 path = some v := by
  cases hl : lruLookup c path with
  | some w =>
    rw [cached_load_hit fs c path w hl] at h ⊢
    simp only [Except.ok.injEq] at h
    exact lruLookup_touch (h ▸ hl)
  | none =>
    unfold cached_load at h ⊢
    rw [hl] at h ⊢
    cases hload : (load_json_frames fs path).1 with
    | ok w =>
      rw [hload] at h
      have h' : (Except.ok w : Except LoadErr (List (List Char))) =
        Except.ok v := h
      simp only [Except.ok.injEq] at h'
      subst h'
      show lruLookup (lruInsert c path w 32) path = some w
      exact lruLookup_insert c path w 31
    | error e =>
      rw [hload] at h
      have h' : (Except.error e : Except LoadErr (List (List Char))) =
        Except.ok v := h
      cases h'

/-- C9: loading through the cache is memoized and bounded: a hit returns the
cached sequence with no decode of the source; after any successful load, an
immediately repeated call with the same identifier is a hit — the identical
sequence, zero decodes; the cache never grows beyond 32 entries; and an
insertion into a full cache evicts exactly the least recently used entry. -/
theorem load_memoized (fs : Fs) (c : LruCache) (path : List Char)
    (v : List (List Char)) :
    (lruLookup c path = some v →
      cached_load fs c path = (Except.ok v, lruTouch c path, 0)) ∧
    ((cached_load fs c path).1 = Except.ok v →
      cached_load fs (cached_load fs c path).2.1 path =
        (Except.ok v, lruTouch (cached_load fs c path).2.1 path, 0)) ∧
    (c.entries.length ≤ 32 →
      (cached_load fs c path).2.1.entries.length ≤ 32) ∧
    (c.entries.length = 32 → lruLookup c path = none →
      (cached_load fs c path).1 = Except.ok v →
      (cached_load fs c path).2.1.entries = (path, v) :: c.entries.dropLast) := by
  refine ⟨cached_load_hit fs c path v, ?_, ?_, ?_⟩
  · intro h
    exact cached_load_hit fs _ path v (cached_load_ok_lookup fs c path v h)
  · intro hle
    cases hl : lruLookup c path with
    | some w =>
      rw [cached_load_hit fs c path w hl]
      unfold lruLookup at hl
      obtain ⟨e, he, _⟩ := Option.map_eq_some'.mp hl
      have hmem := List.mem_of_find?_eq_some he
      have hpred := List.find?_some he
      unfold lruTouch
      rw [he]
      show (e :: c.entries.eraseP (fun e => decide (e.1 = path))).length ≤ 32
      simp only [List.length_cons]
      rw [List.length_eraseP_of_mem hmem hpred]
      have hpos : 0 < c.entries.length := List.length_pos_of_mem hmem
      omega
    | none =>
      unfold cached_load
      rw [hl]
      cases hload : (load_json_frames fs path).1 with
      | ok w =>
        show (lruInsert c path w 32).entries.length ≤ 32
        simp only [lruInsert]
        exact List.length_take_le _ _
      | error e =>
        show c.entries.length ≤ 32
        exact hle
  · intro hfull hmiss hok
    unfold cached_load at hok ⊢
    rw [hmiss] at hok ⊢
    cases hload : (load_json_frames fs path).1 with
    | ok w =>
      rw [hload] at hok
      have hok' : (Except.ok w : Except LoadErr (List (List Char))) =
        Except.ok v := hok
      simp only [Except.ok.injEq] at hok'
      subst hok'
      show (lruInsert c path w 32).entries = (path, w) :: c.entries.dropLast
      simp only [lruInsert]
      rw [show (32 : Nat) = 31 + 1 from rfl, List.take_succ_cons,
        List.dropLast_eq_take, hfull]
    | error e =>
      rw [hload] at hok
      have hok' : (Except.error e : Except LoadErr (List (List Char))) =
        Except.ok v := hok
      cases hok'

/-- Witness for C9: a successful load of `"/p"` into the empty cache, then an
immediate repeat returning the identical cached sequence with zero decodes. -/
theorem load_memoized_witness :
    (cached_load (⟨fun _ => true, fun _ => PyJson.list [PyJson.str "f".toList]⟩ : Fs)
        (⟨[]⟩ : LruCache) "/p".toList).1 = Except.ok ["f".toList] ∧
    cached_load (⟨fun _ => true, fun _ => PyJson.list [PyJson.str "f".toList]⟩ : Fs)
        (cached_load (⟨fun _ => true, fun _ => PyJson.list [PyJson.str "f".toList]⟩ : Fs)
          (⟨[]⟩ : LruCache) "/p".toList).2.1 "/p".toList =
      (Except.ok ["f".toList],
        lruTouch (cached_load
          (⟨fun _ => true, fun _ => PyJson.list [PyJson.str "f".toList]⟩ : Fs)
          (⟨[]⟩ : LruCache) "/p".toList).2.1 "/p".toList, 0) :=
  ⟨rfl,
    (load_memoized (⟨fun _ => true, fun _ => PyJson.list [PyJson.str "f".toList]⟩ : Fs)
      (⟨[]⟩ : LruCache) "/p".toList ["f".toList]).2.1 rfl⟩

/-- C5: on a path that is not cached, loading fails with the matching error —
a non-absolute identifier is rejected, a missing location raises not-found,
decoded content that is not a non-empty list of strings raises
invalid-format — and any failure caches nothing: the cache is left unchanged
and an identical repeated call re-attempts the load and returns the same
propagated error. -/
theorem load_failure_paths (fs : Fs) (c : LruCache) (path : List Char)
    (hmiss : lruLookup c path = none) :
    (pyIsAbs path = false →
      cached_load fs c path = (Except.error LoadErr.invalidConfig, c, 0)) ∧
    (pyIsAbs path = true → fs.pathExists path = false →
      cached_load fs c path = (Except.error LoadErr.notFound, c, 0)) ∧
    (pyIsAbs path = true → fs.pathExists path = true →
      (∀ l, fs.read path = PyJson.list l → l = [] ∨ asStrings l = none) →
      cached_load fs c path = (Except.error LoadErr.invalidFormat, c, 1)) ∧
    (∀ e, (cached_load fs c path).1 = Except.error e →
      (cached_load fs c path).2.1 = c ∧
      cached_load fs (cached_load fs c path).2.1 path =
        cached_load fs c path) := by
  refine ⟨?_, ?_, ?_, ?_⟩
  · intro habs
    unfold cached_load
    rw [hmiss]
    unfold load_json_frames
    simp [habs]
  · intro habs hex
    unfold cached_load
    rw [hmiss]
    unfold load_json_frames
    simp [habs, hex]
  · intro habs hex hshape
    unfold cached_load
    rw [hmiss]
    unfold load_json_frames
    simp only [habs, hex, Bool.true_eq_false, not_true_eq_false, if_false,
      Bool.not_true, ite_false]
    cases hr : fs.read path with
    | str s => simp [habs, hex, hr]
    | other => simp [habs, hex, hr]
    | list l =>
      rcases hshape l hr with rfl | hnone
      · simp [habs, hex, hr]
      · by_cases hemp : l.isEmpty
        · simp [habs, hex, hr, hemp]
        · simp [habs, hex, hr, hemp, hnone]
  · intro e he
    have hcache : (cached_load fs c path).2.1 = c := by
      unfold cached_load at he ⊢
      rw [hmiss] at he ⊢
      cases hload : (load_json_frames fs path).1 with
      | ok w =>
        rw [hload] at he
        have he' : (Except.ok w : Except LoadErr (List (List Char))) =
          Except.error e := he
        cases he'
      | error e' =>
        rfl
    exact ⟨hcache, by rw [hcache]⟩

/-- Witness for C5: an absolute, existing path whose decoded content is the
empty list fails with invalid-format, caching nothing. -/
theorem load_failure_paths_witness :
    cached_load (⟨fun _ => true, fun _ => PyJson.list []⟩ : Fs)
        (⟨[]⟩ : LruCache) "/p".toList =
      (Except.error LoadErr.invalidFormat, (⟨[]⟩ : LruCache), 1) :=
  (load_failure_paths (⟨fun _ => true, fun _ => PyJson.list []⟩ : Fs)
    (⟨[]⟩ : LruCache) "/p".toList rfl).2.2.1 rfl rfl
    (by
      intro l hl
      have h : PyJson.list [] = PyJson.list l := hl
      injection h with h
      exact Or.inl h.symm)

end AsciiStream
